import Mathlib

/-!
Shallow embedding of the RFM (Recency, Frequency, Monetary) customer
segmentation core: mock data generation, percentile-based scoring,
filtering and 5x5 grid bucketization, together with proofs of the
behavioural properties stated in the specification.

Numbers are modelled as exact rationals (the reference only ever divides
an integer index by an integer length, and compares against the decimal
thresholds 0.2 / 0.4 / 0.6 / 0.8, all of which are exact here).
The JavaScript `[...array].sort((a, b) => a - b)` is a stable ascending
numeric sort; on rational values the ascending reordering of a list is
unique, so it is embedded as `List.insertionSort (· ≤ ·)`, which is
structurally recursive and hence executable.  JavaScript `Math.random()`
is modelled as an oracle `rand : ℕ → ℚ` producing values in [0, 1),
consumed at statically determined positions.
-/

/-- Raw customer record: `RFMData` from the source.
`id` is the customer identifier, `recency` days since last purchase,
`frequency` purchase count, `monetary` total spend. -/
structure RFMData where
  id : String
  recency : ℚ
  frequency : ℚ
  monetary : ℚ
  deriving Repr, DecidableEq

/-- Scored customer: `RFMScore` from the source.  Scores are 1-5 per
dimension; `x`/`y` are the grid coordinates. -/
structure RFMScore where
  id : String
  recencyScore : ℤ
  frequencyScore : ℤ
  monetaryScore : ℤ
  x : ℤ
  y : ℤ
  deriving Repr, DecidableEq

/-- `calculatePercentile` from the source: sort the array ascending,
find the first index whose element is `≥ value` (JS `findIndex`, here
`findIdx?` with `none` playing the role of `-1`); return 1 when there is
no such index, 0 when it is 0, and `index / (length - 1)` otherwise. -/
def calculatePercentile (value : ℚ) (array : List ℚ) : ℚ :=
  let sortedArray := array.insertionSort (fun a b => a ≤ b)
  match sortedArray.findIdx? (fun item => decide (value ≤ item)) with
  | none => 1
  | some 0 => 0
  | some index => (index : ℚ) / ((sortedArray.length : ℚ) - 1)

/-- The specification's reference definition of the percentile rank,
written from the spec's words: sort all values ascending; find the first
0-based position `i` whose value is ≥ v; percentile = 0 if `i = 0`,
1 if no such position exists, otherwise `i / (n - 1)` where `n` is the
count of values. -/
def specPercentileRank (v : ℚ) (values : List ℚ) : ℚ :=
  let sorted := values.insertionSort (fun a b => a ≤ b)
  match sorted.findIdx? (fun item => decide (v ≤ item)) with
  | some 0 => 0
  | none => 1
  | some i => (i : ℚ) / ((values.length : ℚ) - 1)

/-- A textbook "fair midpoint-of-ties" percentile rank, for comparison
with the reference rule: the mean of the 0-based sorted positions
holding the value, divided by `n - 1` (meaningful when the value occurs
in the list). -/
def midpointPercentileRank (v : ℚ) (values : List ℚ) : ℚ :=
  let sorted := values.insertionSort (fun a b => a ≤ b)
  let occ := (List.range sorted.length).filter (fun i => decide (sorted.getD i (v + 1) = v))
  ((occ.map (fun i => (i : ℚ))).sum / (occ.length : ℚ)) / ((values.length : ℚ) - 1)

/-- `percentileToScore` from the source: fixed thresholds
`≤0.2→1, ≤0.4→2, ≤0.6→3, ≤0.8→4, else 5`, inverted (`6 - score`) for
the recency dimension. -/
def percentileToScore (percentile : ℚ) (isRecency : Bool) : ℤ :=
  let score : ℤ :=
    if percentile ≤ 0.2 then 1
    else if percentile ≤ 0.4 then 2
    else if percentile ≤ 0.6 then 3
    else if percentile ≤ 0.8 then 4
    else 5
  if isRecency then 6 - score else score

/-- `calculateRFMScores` from the source: per-dimension percentile
against the whole dataset, converted to scores, with `x` the frequency
score and `y` the monetary score. -/
def calculateRFMScores (data : List RFMData) : List RFMScore :=
  let recencyValues := data.map (fun item => item.recency)
  let frequencyValues := data.map (fun item => item.frequency)
  let monetaryValues := data.map (fun item => item.monetary)
  data.map (fun item =>
    let recencyPercentile := calculatePercentile item.recency recencyValues
    let frequencyPercentile := calculatePercentile item.frequency frequencyValues
    let monetaryPercentile := calculatePercentile item.monetary monetaryValues
    let recencyScore := percentileToScore recencyPercentile true
    let frequencyScore := percentileToScore frequencyPercentile false
    let monetaryScore := percentileToScore monetaryPercentile false
    { id := item.id
      recencyScore := recencyScore
      frequencyScore := frequencyScore
      monetaryScore := monetaryScore
      x := frequencyScore
      y := monetaryScore })

/-- Filter criteria as passed to `filterRFMScores`: each field is
optional in the source (`recency?: number; ...`). -/
structure RFMFilters where
  recency : Option ℤ
  frequency : Option ℤ
  monetary : Option ℤ
  deriving Repr, DecidableEq

/-- JavaScript truthiness of an optional numeric field: `undefined` and
`0` are falsy, every other number is truthy. -/
def numTruthy (v : Option ℤ) : Bool :=
  match v with
  | none => false
  | some t => t != 0

/-- `filterRFMScores` from the source: keep a score unless one of the
three guards `if (filters.d && score.dScore < filters.d) return false`
fires. -/
def filterRFMScores (scores : List RFMScore) (filters : RFMFilters) : List RFMScore :=
  scores.filter (fun score =>
    if numTruthy filters.recency && decide (score.recencyScore < filters.recency.getD 0) then false
    else if numTruthy filters.frequency && decide (score.frequencyScore < filters.frequency.getD 0) then false
    else if numTruthy filters.monetary && decide (score.monetaryScore < filters.monetary.getD 0) then false
    else true)

/-- A cell of the 5x5 grid: a running count and the scores bucketed
into the cell, in insertion order. -/
structure GridCell where
  count : ℕ
  items : List RFMScore
  deriving Repr, DecidableEq

/-- The 25 grid keys, x outer 1..5, y inner 1..5, in the order the
source's two nested `for` loops create them.  The JS string key
`"x-y"` is represented by the pair `(x, y)`, which is in bijection with
the key strings over the integer coordinates at hand. -/
def gridKeys : List (ℤ × ℤ) :=
  (List.range 5).flatMap (fun x => (List.range 5).map (fun y => ((x : ℤ) + 1, (y : ℤ) + 1)))

/-- The initialized grid: all 25 cells present with count 0. -/
def emptyGrid : List ((ℤ × ℤ) × GridCell) :=
  gridKeys.map (fun key => (key, { count := 0, items := [] }))

/-- One step of the source's populate loop: `if (grid[key])` increment
the matching cell's count and append the score to its items; out-of-map
keys are a no-op. -/
def gridInsert (grid : List ((ℤ × ℤ) × GridCell)) (score : RFMScore) :
    List ((ℤ × ℤ) × GridCell) :=
  grid.map (fun cell =>
    if cell.1 = (score.x, score.y) then
      (cell.1, { count := cell.2.count + 1, items := cell.2.items ++ [score] })
    else cell)

/-- `getGridData` from the source: initialize the 25 cells, then fold
the populate step over the scores. -/
def getGridData (scores : List RFMScore) : List ((ℤ × ℤ) × GridCell) :=
  scores.foldl gridInsert emptyGrid

/-- JS `String.prototype.padStart`: return the string unchanged when it
is already long enough, otherwise prepend copies of the fill char. -/
def padStart (s : String) (len : ℕ) (c : Char) : String :=
  if len ≤ s.length then s else String.mk (List.replicate (len - s.length) c) ++ s

/-- One base record of `generateMockRFMData` (the body of its first
loop, at 1-based loop index `i0 + 1`).  `rand n` is the value of the
n-th call to `Math.random()`; the first phase makes three calls per
record, so record `i0` uses draws `3 * i0`, `3 * i0 + 1`, `3 * i0 + 2`.
`Math.floor(Math.random() * k) + m` becomes `⌊rand i * k⌋ + m`. -/
def baseRecord (rand : ℕ → ℚ) (i0 : ℕ) : RFMData :=
  { id := "CUST_" ++ padStart (Nat.repr (i0 + 1)) 3 '0'
    recency := ((⌊rand (3 * i0) * 365⌋ + 1 : ℤ) : ℚ)
    frequency := ((⌊rand (3 * i0 + 1) * 50⌋ + 1 : ℤ) : ℚ)
    monetary := ((⌊rand (3 * i0 + 2) * 9990⌋ + 10 : ℤ) : ℚ) }

/-- One VIP overwrite (the body of the generator's second loop): pick a
random index and overwrite that record's frequency and monetary,
keeping the rest (`{...data[index], ...}`).  `base` is the number of
draws already consumed; each iteration uses three draws.  The index is
taken via `get?`/`set`, in range whenever `rand` lands in [0, 1) and
the list is non-empty, exactly as in the source. -/
def vipOverwrite (rand : ℕ → ℚ) (base : ℕ) (d : List RFMData) (j : ℕ) :
    List RFMData :=
  let off := base + 3 * j
  let index := (⌊rand off * (d.length : ℚ)⌋).toNat
  match d.get? index with
  | none => d
  | some old => d.set index
      { old with
        frequency := ((⌊rand (off + 1) * 20⌋ + 30 : ℤ) : ℚ)
        monetary := ((⌊rand (off + 2) * 5000⌋ + 5000 : ℤ) : ℚ) }

/-- One inactive overwrite (the body of the generator's third loop):
pick a random index and overwrite recency, frequency and monetary.
Each iteration uses four draws. -/
def inactiveOverwrite (rand : ℕ → ℚ) (base : ℕ) (d : List RFMData) (k : ℕ) :
    List RFMData :=
  let off := base + 4 * k
  let index := (⌊rand off * (d.length : ℚ)⌋).toNat
  match d.get? index with
  | none => d
  | some old => d.set index
      { old with
        recency := ((⌊rand (off + 1) * 100⌋ + 300 : ℤ) : ℚ)
        frequency := ((⌊rand (off + 2) * 5⌋ + 1 : ℤ) : ℚ)
        monetary := ((⌊rand (off + 3) * 500⌋ + 10 : ℤ) : ℚ) }

/-- `generateMockRFMData` from the source: `count` base records, then
`Math.floor(count * 0.05)` VIP overwrites, then
`Math.floor(count * 0.1)` inactive overwrites. -/
def generateMockRFMData (count : ℕ) (rand : ℕ → ℚ) : List RFMData :=
  let data := (List.range count).map (baseRecord rand)
  let vipCount := (⌊(count : ℚ) * 0.05⌋).toNat
  let vipBase := 3 * count
  let data := (List.range vipCount).foldl (vipOverwrite rand vipBase) data
  let inactiveCount := (⌊(count : ℚ) * 0.1⌋).toNat
  let inactiveBase := vipBase + 3 * vipCount
  (List.range inactiveCount).foldl (inactiveOverwrite rand inactiveBase) data

/-- The customer id produced for 1-based index `i`:
`CUST_` followed by the decimal index zero-padded to 3 characters. -/
def custId (i : ℕ) : String := "CUST_" ++ padStart (Nat.repr i) 3 '0'

/-- Big-endian decimal digit list of a natural number (the logical
content of `Nat.repr`, in a structurally provable form). -/
def natDigits (n : ℕ) : List Char :=
  if h : n < 10 then [Nat.digitChar n]
  else natDigits (n / 10) ++ [Nat.digitChar (n % 10)]
decreasing_by exact Nat.div_lt_self (by omega) (by omega)

/-- Numeric value of a decimal digit character. -/
def digitVal (c : Char) : ℕ := c.toNat - 48

/-- Drop the leading zero fill characters. -/
def stripZeros (l : List Char) : List Char := l.dropWhile (fun c => c == '0')

/-- The documented value ranges of a generated record, as they hold
after all overwrites. -/
def recordInRange (r : RFMData) : Prop :=
  ((1 ≤ r.recency ∧ r.recency ≤ 365) ∨ (300 ≤ r.recency ∧ r.recency ≤ 400)) ∧
  (1 ≤ r.frequency ∧ r.frequency ≤ 50) ∧
  (10 ≤ r.monetary ∧ r.monetary ≤ 10000)

/-! ### Basic facts about the score mapping -/

lemma percentileToScore_bounds (p : ℚ) (b : Bool) :
    1 ≤ percentileToScore p b ∧ percentileToScore p b ≤ 5 := by
  unfold percentileToScore
  cases b <;> split_ifs <;> norm_num

/-- C2: `percentileToScore` maps a percentile in [0,1] through the fixed
thresholds `≤0.2→1, ≤0.4→2, ≤0.6→3, ≤0.8→4, else 5`, and for the
recency dimension returns 6 minus that score, so a low recency
percentile yields the best final score 5. -/
theorem percentileToScore_thresholds (p : ℚ) (h0 : 0 ≤ p) (h1 : p ≤ 1) :
    (p ≤ 0.2 → percentileToScore p false = 1) ∧
    (0.2 < p ∧ p ≤ 0.4 → percentileToScore p false = 2) ∧
    (0.4 < p ∧ p ≤ 0.6 → percentileToScore p false = 3) ∧
    (0.6 < p ∧ p ≤ 0.8 → percentileToScore p false = 4) ∧
    (0.8 < p → percentileToScore p false = 5) ∧
    percentileToScore p true = 6 - percentileToScore p false ∧
    (p ≤ 0.2 → percentileToScore p true = 5) := by
  have hfalse : ∀ q : ℚ, percentileToScore q false =
      (if q ≤ 0.2 then 1 else if q ≤ 0.4 then 2 else if q ≤ 0.6 then 3
       else if q ≤ 0.8 then 4 else 5) := fun q => rfl
  have htrue : ∀ q : ℚ, percentileToScore q true = 6 -
      (if q ≤ 0.2 then 1 else if q ≤ 0.4 then 2 else if q ≤ 0.6 then 3
       else if q ≤ 0.8 then 4 else 5) := fun q => rfl
  refine ⟨?_, ?_, ?_, ?_, ?_, ?_, ?_⟩
  · intro h; rw [hfalse, if_pos h]
  · rintro ⟨h2, h3⟩; rw [hfalse, if_neg (by linarith), if_pos h3]
  · rintro ⟨h2, h3⟩
    rw [hfalse, if_neg (by linarith), if_neg (by linarith), if_pos h3]
  · rintro ⟨h2, h3⟩
    rw [hfalse, if_neg (by linarith), if_neg (by linarith), if_neg (by linarith),
      if_pos h3]
  · intro h2
    rw [hfalse, if_neg (by linarith), if_neg (by linarith), if_neg (by linarith),
      if_neg (by linarith)]
  · rw [htrue, hfalse]
  · intro h; rw [htrue, if_pos h]; norm_num

/-- Witness for C2 at the concrete percentile 1/2. -/
theorem percentileToScore_thresholds_witness :
    percentileToScore (1/2) true = 6 - percentileToScore (1/2) false :=
  (percentileToScore_thresholds (1/2) (by norm_num) (by norm_num)).2.2.2.2.2.1

/-- C1: for every non-empty array, `calculatePercentile` agrees with the
specification's reference percentile-rank definition. -/
theorem calculatePercentile_eq_specPercentileRank (v : ℚ) (values : List ℚ)
    (h : values ≠ []) :
    calculatePercentile v values = specPercentileRank v values := by
  unfold calculatePercentile specPercentileRank
  cases hfi : List.findIdx? (fun item => decide (v ≤ item))
      (values.insertionSort (fun a b => a ≤ b)) with
  | none => simp only [hfi]
  | some i =>
      cases i with
      | zero => simp only [hfi]
      | succ n => simp only [hfi, List.length_insertionSort]

/-- Witness for C1 on the 5-element array from the spec. -/
theorem calculatePercentile_eq_specPercentileRank_witness :
    calculatePercentile 25 [10, 20, 30, 40, 50] =
      specPercentileRank 25 [10, 20, 30, 40, 50] :=
  calculatePercentile_eq_specPercentileRank 25 [10, 20, 30, 40, 50] (by simp)

/-- C10: scoring the empty input sequence yields the empty sequence, with
no error. -/
theorem calculateRFMScores_empty : calculateRFMScores [] = [] := rfl

/-! ### Ties in the percentile ranking (C6) -/

/-- C6 counterexample: the claimed consequence is false.  The percentile
rank of a record in a dimension is a function of its value and the
dimension's value array only, so two records with equal values in a
dimension always receive identical percentile ranks — no dataset can
make them differ. -/
theorem percentile_ties_counterexample :
    ¬ ∃ (data : List RFMData) (i j : ℕ) (hi : i < data.length)
        (hj : j < data.length),
        (data.get ⟨i, hi⟩).recency = (data.get ⟨j, hj⟩).recency ∧
        calculatePercentile (data.get ⟨i, hi⟩).recency
            (data.map (fun item => item.recency)) ≠
          calculatePercentile (data.get ⟨j, hj⟩).recency
            (data.map (fun item => item.recency)) := by
  rintro ⟨data, i, j, hi, hj, heq, hne⟩
  exact hne (by rw [heq])

/-- C6 amended: the ranking does break ties by the first matching
(smallest-indexed) sorted occurrence rather than a midpoint-of-ties
rule — on `[10, 20, 20, 30]` the value 20 gets rank 1/3 (first index 1
of 3) where the midpoint rule gives 1/2 — but records with equal values
in a dimension always receive identical percentile ranks. -/
theorem percentile_tie_breaking :
    (∀ (data : List RFMData) (i j : ℕ) (hi : i < data.length)
        (hj : j < data.length),
        (data.get ⟨i, hi⟩).recency = (data.get ⟨j, hj⟩).recency →
        calculatePercentile (data.get ⟨i, hi⟩).recency
            (data.map (fun item => item.recency)) =
          calculatePercentile (data.get ⟨j, hj⟩).recency
            (data.map (fun item => item.recency))) ∧
    calculatePercentile 20 [10, 20, 20, 30] = 1/3 ∧
    midpointPercentileRank 20 [10, 20, 20, 30] = 1/2 ∧
    calculatePercentile 20 [10, 20, 20, 30] ≠
      midpointPercentileRank 20 [10, 20, 20, 30] := by
  refine ⟨fun data i j hi hj heq => by rw [heq], ?_, ?_, ?_⟩
  · norm_num [calculatePercentile, List.insertionSort, List.orderedInsert,
      List.findIdx?, List.findIdx?_cons]
  · norm_num [midpointPercentileRank, List.insertionSort, List.orderedInsert,
      List.range_succ, List.getD, List.filter]
  · norm_num [calculatePercentile, midpointPercentileRank, List.insertionSort,
      List.orderedInsert, List.findIdx?, List.findIdx?_cons, List.range_succ,
      List.getD, List.filter]

/-! ### Totality of the percentile computation (C9) -/

/-- C9: when the value belongs to the array, the first-index search
always succeeds (the `percentile = 1` fallback branch is dead), the
found index is below the array length, the result comes from the
`index = 0` / division branches only, and the division is executed only
when the index is at least 1, which forces the length to be at least 2,
so the divisor `length - 1` is nonzero. -/
theorem calculatePercentile_total (v : ℚ) (values : List ℚ) (hv : v ∈ values) :
    ∃ i, List.findIdx? (fun item => decide (v ≤ item))
        (values.insertionSort (fun a b => a ≤ b)) = some i ∧
      i < values.length ∧
      calculatePercentile v values =
        (if i = 0 then 0 else (i : ℚ) / ((values.length : ℚ) - 1)) ∧
      (1 ≤ i → 2 ≤ values.length ∧ ((values.length : ℚ) - 1) ≠ 0) := by
  have hmem : v ∈ values.insertionSort (fun a b => a ≤ b) :=
    (List.mem_insertionSort (fun a b => a ≤ b)).mpr hv
  have hex : ∃ x, x ∈ values.insertionSort (fun a b => a ≤ b) ∧
      (fun item => decide (v ≤ item)) x = true := ⟨v, hmem, by simp⟩
  obtain ⟨i, hfi⟩ : ∃ i, List.findIdx? (fun item => decide (v ≤ item))
      (values.insertionSort (fun a b => a ≤ b)) = some i :=
    ⟨_, List.findIdx?_eq_some_of_exists hex⟩
  have hlt : i < values.length := by
    have := (List.findIdx?_eq_some_iff_findIdx_eq.mp hfi).1
    rwa [List.length_insertionSort] at this
  refine ⟨i, hfi, hlt, ?_, ?_⟩
  · simp only [calculatePercentile]
    rw [hfi]
    cases i with
    | zero => simp
    | succ n => simp [List.length_insertionSort]
  · intro h1
    have h2 : 2 ≤ values.length := by omega
    refine ⟨h2, ?_⟩
    have : (2 : ℚ) ≤ (values.length : ℚ) := by exact_mod_cast h2
    intro hzero
    have : (values.length : ℚ) = 1 := by linarith
    linarith

/-! ### The scorer's shape (C3) -/

/-- C3: `calculateRFMScores` is order-preserving with one output per
input and preserved ids, every score lies in [1,5], and the grid
coordinates equal the frequency and monetary scores. -/
theorem calculateRFMScores_spec (data : List RFMData) (h : data ≠ []) :
    (calculateRFMScores data).map RFMScore.id = data.map RFMData.id ∧
    (calculateRFMScores data).length = data.length ∧
    ∀ s ∈ calculateRFMScores data,
      (1 ≤ s.recencyScore ∧ s.recencyScore ≤ 5) ∧
      (1 ≤ s.frequencyScore ∧ s.frequencyScore ≤ 5) ∧
      (1 ≤ s.monetaryScore ∧ s.monetaryScore ≤ 5) ∧
      s.x = s.frequencyScore ∧ s.y = s.monetaryScore := by
  refine ⟨?_, ?_, ?_⟩
  · simp only [calculateRFMScores, List.map_map]
    exact List.map_congr_left (fun item hitem => rfl)
  · simp [calculateRFMScores]
  · intro s hs
    simp only [calculateRFMScores, List.mem_map] at hs
    obtain ⟨item, hitem, rfl⟩ := hs
    dsimp only
    refine ⟨?_, ?_, ?_, rfl, rfl⟩ <;> exact percentileToScore_bounds _ _

/-- Witness for C3 on a concrete one-record dataset. -/
theorem calculateRFMScores_spec_witness :
    (calculateRFMScores [{ id := "CUST_001", recency := 15, frequency := 25, monetary := 8500 }]).map RFMScore.id =
      [{ id := "CUST_001", recency := (15:ℚ), frequency := 25, monetary := 8500 }].map RFMData.id :=
  (calculateRFMScores_spec [{ id := "CUST_001", recency := 15, frequency := 25, monetary := 8500 }] (by simp)).1

/-! ### The filter (C5, C7) -/

lemma filter_guard_eq (t v : ℤ) (hv : 1 ≤ v) :
    (numTruthy (some t) && decide (v < t)) = !decide (t ≤ v) := by
  simp only [numTruthy]
  by_cases ht : t = 0
  · subst ht
    simp only [bne_self_eq_false, Bool.false_and]
    symm
    simp only [Bool.not_eq_false', decide_eq_true_eq]
    omega
  · have hbne : (t != 0) = true := by simp [bne_iff_ne, ht]
    rw [hbne, Bool.true_and]
    rcases le_or_lt t v with hle | hlt
    · simp [not_lt.mpr hle, hle]
    · simp [hlt, not_le.mpr hlt]

lemma filterRFMScores_eq_filter (scores : List RFMScore) (r f m : ℤ)
    (hs : ∀ s ∈ scores,
      1 ≤ s.recencyScore ∧ 1 ≤ s.frequencyScore ∧ 1 ≤ s.monetaryScore) :
    filterRFMScores scores ⟨some r, some f, some m⟩ =
      scores.filter (fun s => decide (r ≤ s.recencyScore) &&
        decide (f ≤ s.frequencyScore) && decide (m ≤ s.monetaryScore)) := by
  unfold filterRFMScores
  apply List.filter_congr
  intro s hsmem
  obtain ⟨h1, h2, h3⟩ := hs s hsmem
  show (if numTruthy (some r) && decide (s.recencyScore < r) then false
    else if numTruthy (some f) && decide (s.frequencyScore < f) then false
    else if numTruthy (some m) && decide (s.monetaryScore < m) then false
    else true) = _
  rw [filter_guard_eq r _ h1, filter_guard_eq f _ h2, filter_guard_eq m _ h3]
  cases hA : decide (r ≤ s.recencyScore) <;>
    cases hB : decide (f ≤ s.frequencyScore) <;>
    cases hC : decide (m ≤ s.monetaryScore) <;> simp

/-- C5: for scores in [1,5] and any integer criteria, `filterRFMScores`
keeps a record exactly when all three scores meet their thresholds;
out-of-range criteria are literal, so all-0 criteria keep everything
and all-6 criteria keep nothing. -/
theorem filterRFMScores_spec (scores : List RFMScore) (r f m : ℤ)
    (hs : ∀ s ∈ scores,
      (1 ≤ s.recencyScore ∧ s.recencyScore ≤ 5) ∧
      (1 ≤ s.frequencyScore ∧ s.frequencyScore ≤ 5) ∧
      (1 ≤ s.monetaryScore ∧ s.monetaryScore ≤ 5)) :
    filterRFMScores scores ⟨some r, some f, some m⟩ =
      scores.filter (fun s => decide (r ≤ s.recencyScore) &&
        decide (f ≤ s.frequencyScore) && decide (m ≤ s.monetaryScore)) ∧
    filterRFMScores scores ⟨some 0, some 0, some 0⟩ = scores ∧
    filterRFMScores scores ⟨some 6, some 6, some 6⟩ = [] := by
  have hs1 : ∀ s ∈ scores,
      1 ≤ s.recencyScore ∧ 1 ≤ s.frequencyScore ∧ 1 ≤ s.monetaryScore :=
    fun s hmem => ⟨(hs s hmem).1.1, (hs s hmem).2.1.1, (hs s hmem).2.2.1⟩
  refine ⟨filterRFMScores_eq_filter scores r f m hs1, ?_, ?_⟩
  · rw [filterRFMScores_eq_filter scores 0 0 0 hs1]
    apply List.filter_eq_self.mpr
    intro s hmem
    obtain ⟨hr, hf, hm⟩ := hs1 s hmem
    simp only [Bool.and_eq_true, decide_eq_true_eq]
    omega
  · rw [filterRFMScores_eq_filter scores 6 6 6 hs1]
    apply List.filter_eq_nil_iff.mpr
    intro s hmem
    obtain ⟨⟨_, hr⟩, ⟨_, hf⟩, _, hm⟩ := hs s hmem
    simp only [Bool.and_eq_true, decide_eq_true_eq, not_and]
    omega

/-- Witness for C5 on a concrete one-record list with criteria 2/2/2. -/
theorem filterRFMScores_spec_witness :
    filterRFMScores [{ id := "a", recencyScore := 3, frequencyScore := 3, monetaryScore := 3, x := 3, y := 3 }] ⟨some 2, some 2, some 2⟩ =
      [{ id := "a", recencyScore := 3, frequencyScore := 3, monetaryScore := 3, x := 3, y := 3 }].filter
        (fun s => decide ((2:ℤ) ≤ s.recencyScore) &&
          decide ((2:ℤ) ≤ s.frequencyScore) && decide ((2:ℤ) ≤ s.monetaryScore)) :=
  (filterRFMScores_spec [{ id := "a", recencyScore := 3, frequencyScore := 3, monetaryScore := 3, x := 3, y := 3 }] 2 2 2 (by decide)).1

/-- C7: with scores and thresholds in [1,5], raising any single
threshold never increases the number of filtered records. -/
theorem filterRFMScores_monotone (scores : List RFMScore)
    (hs : ∀ s ∈ scores,
      (1 ≤ s.recencyScore ∧ s.recencyScore ≤ 5) ∧
      (1 ≤ s.frequencyScore ∧ s.frequencyScore ≤ 5) ∧
      (1 ≤ s.monetaryScore ∧ s.monetaryScore ≤ 5))
    (r f m r2 f2 m2 : ℤ)
    (hr1 : 1 ≤ r) (hr12 : r ≤ r2) (hr25 : r2 ≤ 5)
    (hf1 : 1 ≤ f) (hf12 : f ≤ f2) (hf25 : f2 ≤ 5)
    (hm1 : 1 ≤ m) (hm12 : m ≤ m2) (hm25 : m2 ≤ 5) :
    (filterRFMScores scores ⟨some r2, some f, some m⟩).length ≤
      (filterRFMScores scores ⟨some r, some f, some m⟩).length ∧
    (filterRFMScores scores ⟨some r, some f2, some m⟩).length ≤
      (filterRFMScores scores ⟨some r, some f, some m⟩).length ∧
    (filterRFMScores scores ⟨some r, some f, some m2⟩).length ≤
      (filterRFMScores scores ⟨some r, some f, some m⟩).length := by
  have hs1 : ∀ s ∈ scores,
      1 ≤ s.recencyScore ∧ 1 ≤ s.frequencyScore ∧ 1 ≤ s.monetaryScore :=
    fun s hmem => ⟨(hs s hmem).1.1, (hs s hmem).2.1.1, (hs s hmem).2.2.1⟩
  refine ⟨?_, ?_, ?_⟩ <;>
    · rw [filterRFMScores_eq_filter _ _ _ _ hs1,
        filterRFMScores_eq_filter _ _ _ _ hs1]
      apply List.Sublist.length_le
      apply List.monotone_filter_right
      intro a ha
      simp only [Bool.and_eq_true, decide_eq_true_eq] at ha ⊢
      omega

/-- Witness for C7 on a concrete one-record list, raising 1/1/1
to 2/2/2. -/
theorem filterRFMScores_monotone_witness :
    (filterRFMScores [{ id := "a", recencyScore := 3, frequencyScore := 3, monetaryScore := 3, x := 3, y := 3 }] ⟨some 2, some 1, some 1⟩).length ≤
      (filterRFMScores [{ id := "a", recencyScore := 3, frequencyScore := 3, monetaryScore := 3, x := 3, y := 3 }] ⟨some 1, some 1, some 1⟩).length :=
  (filterRFMScores_monotone [{ id := "a", recencyScore := 3, frequencyScore := 3, monetaryScore := 3, x := 3, y := 3 }] (by decide) 1 1 1 2 2 2
    (by decide) (by decide) (by decide) (by decide) (by decide) (by decide)
    (by decide) (by decide) (by decide)).1


/-! ### The grid bucketizer (C4) -/

lemma mem_gridKeys_iff (a b : ℤ) :
    (a, b) ∈ gridKeys ↔ (1 ≤ a ∧ a ≤ 5) ∧ 1 ≤ b ∧ b ≤ 5 := by
  constructor
  · intro h
    have hall : ∀ p ∈ gridKeys, (1 ≤ p.1 ∧ p.1 ≤ 5) ∧ 1 ≤ p.2 ∧ p.2 ≤ 5 := by decide
    exact hall (a, b) h
  · rintro ⟨⟨h1, h2⟩, h3, h4⟩
    interval_cases a <;> interval_cases b <;> decide

lemma gridKeys_nodup : gridKeys.Nodup := by decide

lemma foldl_gridInsert (scores : List RFMScore) (g : List ((ℤ × ℤ) × GridCell)) :
    scores.foldl gridInsert g =
      g.map (fun cell => (cell.1,
        { count := cell.2.count +
            (scores.filter (fun s => decide (cell.1 = (s.x, s.y)))).length,
          items := cell.2.items ++
            scores.filter (fun s => decide (cell.1 = (s.x, s.y))) })) := by
  induction scores generalizing g with
  | nil => simp
  | cons s rest ih =>
      rw [List.foldl_cons, ih]
      unfold gridInsert
      rw [List.map_map]
      apply List.map_congr_left
      intro cell hcell
      by_cases hk : cell.1 = (s.x, s.y)
      · rw [Function.comp_apply, if_pos hk, List.filter_cons, if_pos (by simp [hk])]
        simp only [List.length_cons]
        rw [Prod.mk.injEq, GridCell.mk.injEq]
        refine ⟨rfl, by omega, ?_⟩
        rw [List.append_assoc, List.singleton_append]
      · rw [Function.comp_apply, if_neg hk, List.filter_cons, if_neg (by simp [hk])]

lemma getGridData_eq (scores : List RFMScore) :
    getGridData scores = gridKeys.map (fun key => (key,
      { count := (scores.filter (fun s => decide (key = (s.x, s.y)))).length,
        items := scores.filter (fun s => decide (key = (s.x, s.y))) })) := by
  unfold getGridData emptyGrid
  rw [foldl_gridInsert, List.map_map]
  apply List.map_congr_left
  intro key hkey
  simp

lemma sum_map_add_nat {γ : Type} (l : List γ) (f g : γ → ℕ) :
    (l.map (fun k => f k + g k)).sum = (l.map f).sum + (l.map g).sum := by
  induction l with
  | nil => simp
  | cons a t ih => simp only [List.map_cons, List.sum_cons, ih]; omega

lemma sum_map_indicator (l : List (ℤ × ℤ)) (c : ℤ × ℤ) (hnd : l.Nodup)
    (hm : c ∈ l) :
    (l.map (fun k => if k = c then 1 else 0)).sum = 1 := by
  induction l with
  | nil => cases hm
  | cons a t ih =>
      rw [List.map_cons, List.sum_cons]
      rcases List.mem_cons.mp hm with heq | hct
      · rw [if_pos heq.symm]
        have hz : (t.map (fun k => if k = c then 1 else 0)).sum = 0 := by
          apply List.sum_eq_zero
          intro x hx
          rw [List.mem_map] at hx
          obtain ⟨k, hkt, rfl⟩ := hx
          rw [if_neg]
          intro hkc
          subst hkc
          subst heq
          exact (List.nodup_cons.mp hnd).1 hkt
        omega
      · have hne : ¬ a = c := by
          intro hac
          subst hac
          exact (List.nodup_cons.mp hnd).1 hct
        rw [if_neg hne, ih (List.nodup_cons.mp hnd).2 hct]

lemma sum_grid_counts (scores : List RFMScore)
    (hrange : ∀ s ∈ scores, (1 ≤ s.x ∧ s.x ≤ 5) ∧ 1 ≤ s.y ∧ s.y ≤ 5) :
    (gridKeys.map
      (fun key => (scores.filter (fun s => decide (key = (s.x, s.y)))).length)).sum
      = scores.length := by
  induction scores with
  | nil => simp
  | cons s rest ih =>
      have hmem : ((s.x, s.y) : ℤ × ℤ) ∈ gridKeys :=
        (mem_gridKeys_iff s.x s.y).mpr (hrange s (List.mem_cons_self s rest))
      have hrest := fun t ht => hrange t (List.mem_cons_of_mem s ht)
      have hsplit : ∀ key : ℤ × ℤ,
          ((s :: rest).filter (fun t => decide (key = (t.x, t.y)))).length =
            (if key = (s.x, s.y) then 1 else 0) +
              (rest.filter (fun t => decide (key = (t.x, t.y)))).length := by
        intro key
        rw [List.filter_cons]
        by_cases h : key = (s.x, s.y)
        · rw [if_pos (by simp [h]), if_pos h, List.length_cons]
          omega
        · rw [if_neg (by simp [h]), if_neg h]
          omega
      rw [List.map_congr_left (fun key _ => hsplit key), sum_map_add_nat,
        sum_map_indicator gridKeys (s.x, s.y) gridKeys_nodup hmem, ih hrest,
        List.length_cons]
      omega

/-- C4: `getGridData` always returns exactly the 25 distinct keys
`(x, y)` with `x, y` in [1,5]; every cell holds exactly the input scores
whose coordinates match its key, in input order, with `count` equal to
the number of held items (so scores with out-of-range coordinates are
silently dropped from every cell, a no-op of the fold, never a crash);
and when all scores are in range the 25 counts sum to the input
length — an exact partition. -/
theorem getGridData_spec (scores : List RFMScore) :
    (getGridData scores).map Prod.fst = gridKeys ∧
    ((getGridData scores).map Prod.fst).Nodup ∧
    (∀ key cell, (key, cell) ∈ getGridData scores →
        cell.items = scores.filter (fun s => decide (key = (s.x, s.y))) ∧
        cell.count = cell.items.length) ∧
    ((∀ s ∈ scores, (1 ≤ s.x ∧ s.x ≤ 5) ∧ 1 ≤ s.y ∧ s.y ≤ 5) →
        ((getGridData scores).map (fun cell => cell.2.count)).sum =
          scores.length) := by
  have hkeys : (getGridData scores).map Prod.fst = gridKeys := by
    rw [getGridData_eq, List.map_map]
    exact List.map_congr_left (fun key hkey => rfl) |>.trans (List.map_id gridKeys)
  refine ⟨hkeys, by rw [hkeys]; exact gridKeys_nodup, ?_, ?_⟩
  · intro key cell hmem
    rw [getGridData_eq, List.mem_map] at hmem
    obtain ⟨k, hk, heq⟩ := hmem
    rw [Prod.mk.injEq] at heq
    obtain ⟨h1, h2⟩ := heq
    subst h1
    subst h2
    exact ⟨rfl, rfl⟩
  · intro hrange
    rw [getGridData_eq, List.map_map]
    exact sum_grid_counts scores hrange

/-- Witness for C4: the partition count on a concrete singleton, via the
range hypothesis discharged by evaluation. -/
theorem getGridData_spec_witness :
    ((getGridData [{ id := "a", recencyScore := 3, frequencyScore := 3, monetaryScore := 3, x := 3, y := 3 }]).map (fun cell => cell.2.count)).sum =
      ([{ id := "a", recencyScore := 3, frequencyScore := 3, monetaryScore := 3, x := 3, y := 3 }] : List RFMScore).length :=
  (getGridData_spec [{ id := "a", recencyScore := 3, frequencyScore := 3, monetaryScore := 3, x := 3, y := 3 }]).2.2.2 (by decide)

/-! ### The mock data generator (C8) -/

lemma digitVal_digitChar : ∀ d < 10, digitVal (Nat.digitChar d) = d := by decide

lemma toDigitsCore_eq (fuel : ℕ) : ∀ (n : ℕ) (ds : List Char), n < fuel →
    Nat.toDigitsCore 10 fuel n ds = natDigits n ++ ds := by
  induction fuel with
  | zero => omega
  | succ f ih =>
      intro n ds hn
      rw [Nat.toDigitsCore]
      by_cases h0 : n / 10 = 0
      · have hlt : n < 10 := by omega
        simp only [h0, if_true]
        rw [natDigits, dif_pos hlt, Nat.mod_eq_of_lt hlt, List.singleton_append]
      · simp only [h0, if_false]
        rw [ih (n / 10) _ (by omega)]
        conv_rhs => rw [natDigits]
        rw [dif_neg (show ¬ n < 10 by omega), List.append_assoc,
          List.singleton_append]

lemma natRepr_eq (n : ℕ) : Nat.repr n = String.mk (natDigits n) := by
  show (Nat.toDigits 10 n).asString = String.mk (natDigits n)
  rw [Nat.toDigits, toDigitsCore_eq (n + 1) n [] (Nat.lt_succ_self n),
    List.append_nil]
  rfl

lemma natDigits_foldl (n : ℕ) : ∀ acc : ℕ,
    (natDigits n).foldl (fun a c => 10 * a + digitVal c) acc =
      acc * 10 ^ (natDigits n).length + n := by
  induction n using Nat.strong_induction_on with
  | _ n ih =>
      intro acc
      by_cases h : n < 10
      · rw [natDigits, dif_pos h]
        simp only [List.foldl_cons, List.foldl_nil, List.length_singleton,
          pow_one, digitVal_digitChar n h]
        ring
      · rw [natDigits, dif_neg h, List.foldl_append,
          ih (n / 10) (Nat.div_lt_self (by omega) (by omega)) acc]
        simp only [List.foldl_cons, List.foldl_nil, List.length_append,
          List.length_singleton, digitVal_digitChar (n % 10) (Nat.mod_lt n (by omega))]
        calc 10 * (acc * 10 ^ (natDigits (n / 10)).length + n / 10) + n % 10
            = acc * 10 ^ ((natDigits (n / 10)).length + 1) +
              (10 * (n / 10) + n % 10) := by ring
          _ = acc * 10 ^ ((natDigits (n / 10)).length + 1) + n := by
              rw [Nat.div_add_mod]

lemma natDigits_inj : Function.Injective natDigits := by
  intro a b h
  have ha := natDigits_foldl a 0
  have hb := natDigits_foldl b 0
  rw [h] at ha
  rw [hb] at ha
  simpa using ha.symm

lemma natDigits_ne_nil (n : ℕ) : natDigits n ≠ [] := by
  rw [natDigits]
  by_cases h : n < 10
  · rw [dif_pos h]; simp
  · rw [dif_neg h]; simp

lemma natDigits_head (n : ℕ) (hn : 1 ≤ n) :
    ∀ c cs, natDigits n = c :: cs → c ≠ '0' := by
  induction n using Nat.strong_induction_on with
  | _ n ih =>
      intro c cs hcs
      by_cases h : n < 10
      · rw [natDigits, dif_pos h] at hcs
        have hall : ∀ m < 10, 1 ≤ m → Nat.digitChar m ≠ '0' := by decide
        injection hcs with h1 h2
        subst h1
        exact hall n h hn
      · rw [natDigits, dif_neg h] at hcs
        obtain ⟨d, ds, hds⟩ : ∃ d ds, natDigits (n / 10) = d :: ds := by
          cases hnd : natDigits (n / 10) with
          | nil => exact absurd hnd (natDigits_ne_nil _)
          | cons d ds => exact ⟨d, ds, rfl⟩
        rw [hds, List.cons_append] at hcs
        injection hcs with h1 h2
        subst h1
        exact ih (n / 10) (Nat.div_lt_self (by omega) (by omega)) (by omega) _ _ hds


lemma stripZeros_pad (k : ℕ) (l : List Char)
    (hhead : ∀ d ds, l = d :: ds → d ≠ '0') :
    stripZeros (List.replicate k '0' ++ l) = l := by
  induction k with
  | zero =>
      rw [List.replicate_zero, List.nil_append]
      cases l with
      | nil => rfl
      | cons d ds =>
          rw [stripZeros, List.dropWhile_cons, if_neg]
          simp only [beq_iff_eq]
          exact fun hc => hhead d ds rfl hc
  | succ k ih =>
      rw [List.replicate_succ, List.cons_append, stripZeros, List.dropWhile_cons,
        if_pos (by simp)]
      exact ih

lemma padStart_mk (l : List Char) (len : ℕ) (c : Char) :
    padStart (String.mk l) len c =
      String.mk (List.replicate (len - l.length) c ++ l) := by
  unfold padStart
  by_cases h : len ≤ (String.mk l).length
  · rw [if_pos h]
    have hlen : len - l.length = 0 := by
      simp only [String.length_mk] at h
      omega
    rw [hlen, List.replicate_zero, List.nil_append]
  · rw [if_neg h]
    apply String.ext
    simp [String.data_append]

lemma custId_inj (a b : ℕ) (ha : 1 ≤ a) (hb : 1 ≤ b) (h : custId a = custId b) :
    a = b := by
  unfold custId at h
  rw [natRepr_eq, natRepr_eq, padStart_mk, padStart_mk] at h
  have hdata := congrArg String.data h
  rw [String.data_append, String.data_append] at hdata
  have h2 := List.append_cancel_left hdata
  have h3 := congrArg stripZeros h2
  rw [stripZeros_pad _ _ (fun d ds hd => natDigits_head a ha d ds hd),
    stripZeros_pad _ _ (fun d ds hd => natDigits_head b hb d ds hd)] at h3
  exact natDigits_inj h3

lemma floor_rand_mul (q : ℚ) (hq0 : 0 ≤ q) (hq1 : q < 1) (m : ℚ) (k : ℤ)
    (hmk : m = (k : ℚ)) (hk : 0 < k) : 0 ≤ ⌊q * m⌋ ∧ ⌊q * m⌋ < k := by
  subst hmk
  refine ⟨Int.floor_nonneg.mpr (mul_nonneg hq0 (by exact_mod_cast hk.le)), ?_⟩
  apply Int.floor_lt.mpr
  have hkq : (0:ℚ) < (k:ℚ) := by exact_mod_cast hk
  calc q * (k:ℚ) < 1 * (k:ℚ) := mul_lt_mul_of_pos_right hq1 hkq
    _ = ((k:ℤ):ℚ) := by rw [one_mul]

lemma foldl_preserves {α β : Type} (P : α → Prop) (step : α → β → α)
    (l : List β) (a : α) (ha : P a) (hstep : ∀ x b, P x → P (step x b)) :
    P (l.foldl step a) := by
  induction l generalizing a with
  | nil => exact ha
  | cons b t ih => exact ih _ (hstep a b ha)

lemma map_id_set (d : List RFMData) (i : ℕ) (old new : RFMData)
    (hget : d.get? i = some old) (hid : new.id = old.id) :
    (d.set i new).map RFMData.id = d.map RFMData.id := by
  rw [List.map_set]
  apply List.ext_getElem?
  intro j
  rw [List.getElem?_set']
  by_cases hij : i = j
  · subst hij
    rw [if_pos rfl]
    rw [List.getElem?_map, ← List.get?_eq_getElem?, hget]
    simp [hid]
  · rw [if_neg hij]

lemma baseRecord_inRange (rand : ℕ → ℚ) (hrand : ∀ n, 0 ≤ rand n ∧ rand n < 1)
    (i0 : ℕ) : recordInRange (baseRecord rand i0) := by
  obtain ⟨hr0, hrlt⟩ := floor_rand_mul (rand (3 * i0)) (hrand _).1 (hrand _).2
    365 365 (by norm_num) (by norm_num)
  obtain ⟨hf0, hflt⟩ := floor_rand_mul (rand (3 * i0 + 1)) (hrand _).1 (hrand _).2
    50 50 (by norm_num) (by norm_num)
  obtain ⟨hm0, hmlt⟩ := floor_rand_mul (rand (3 * i0 + 2)) (hrand _).1 (hrand _).2
    9990 9990 (by norm_num) (by norm_num)
  unfold baseRecord recordInRange
  dsimp only
  refine ⟨Or.inl ⟨?_, ?_⟩, ⟨?_, ?_⟩, ⟨?_, ?_⟩⟩
  · exact_mod_cast (show (1:ℤ) ≤ ⌊rand (3 * i0) * 365⌋ + 1 by omega)
  · exact_mod_cast (show ⌊rand (3 * i0) * 365⌋ + 1 ≤ (365:ℤ) by omega)
  · exact_mod_cast (show (1:ℤ) ≤ ⌊rand (3 * i0 + 1) * 50⌋ + 1 by omega)
  · exact_mod_cast (show ⌊rand (3 * i0 + 1) * 50⌋ + 1 ≤ (50:ℤ) by omega)
  · exact_mod_cast (show (10:ℤ) ≤ ⌊rand (3 * i0 + 2) * 9990⌋ + 10 by omega)
  · exact_mod_cast (show ⌊rand (3 * i0 + 2) * 9990⌋ + 10 ≤ (10000:ℤ) by omega)

lemma vipOverwrite_preserves (rand : ℕ → ℚ)
    (hrand : ∀ n, 0 ≤ rand n ∧ rand n < 1) (base : ℕ) (ids : List String)
    (d : List RFMData) (j : ℕ)
    (h : d.map RFMData.id = ids ∧ ∀ r ∈ d, recordInRange r) :
    (vipOverwrite rand base d j).map RFMData.id = ids ∧
    ∀ r ∈ vipOverwrite rand base d j, recordInRange r := by
  obtain ⟨hids, hrange⟩ := h
  unfold vipOverwrite
  dsimp only
  cases hget : d.get? (⌊rand (base + 3 * j) * (d.length : ℚ)⌋).toNat with
  | none => exact ⟨hids, hrange⟩
  | some old =>
      dsimp only
      constructor
      · rw [map_id_set d _ old _ hget (by rfl)]
        exact hids
      · intro r hr
        rcases List.mem_or_eq_of_mem_set hr with hmem | rfl
        · exact hrange r hmem
        · obtain ⟨hrec, -, -⟩ := hrange old (List.get?_mem hget)
          obtain ⟨hf0, hflt⟩ := floor_rand_mul (rand (base + 3 * j + 1))
            (hrand _).1 (hrand _).2 20 20 (by norm_num) (by norm_num)
          obtain ⟨hm0, hmlt⟩ := floor_rand_mul (rand (base + 3 * j + 2))
            (hrand _).1 (hrand _).2 5000 5000 (by norm_num) (by norm_num)
          refine ⟨hrec, ⟨?_, ?_⟩, ⟨?_, ?_⟩⟩ <;> dsimp only
          · exact_mod_cast
              (show (1:ℤ) ≤ ⌊rand (base + 3 * j + 1) * 20⌋ + 30 by omega)
          · exact_mod_cast
              (show ⌊rand (base + 3 * j + 1) * 20⌋ + 30 ≤ (50:ℤ) by omega)
          · exact_mod_cast
              (show (10:ℤ) ≤ ⌊rand (base + 3 * j + 2) * 5000⌋ + 5000 by omega)
          · exact_mod_cast
              (show ⌊rand (base + 3 * j + 2) * 5000⌋ + 5000 ≤ (10000:ℤ) by omega)

lemma inactiveOverwrite_preserves (rand : ℕ → ℚ)
    (hrand : ∀ n, 0 ≤ rand n ∧ rand n < 1) (base : ℕ) (ids : List String)
    (d : List RFMData) (k : ℕ)
    (h : d.map RFMData.id = ids ∧ ∀ r ∈ d, recordInRange r) :
    (inactiveOverwrite rand base d k).map RFMData.id = ids ∧
    ∀ r ∈ inactiveOverwrite rand base d k, recordInRange r := by
  obtain ⟨hids, hrange⟩ := h
  unfold inactiveOverwrite
  dsimp only
  cases hget : d.get? (⌊rand (base + 4 * k) * (d.length : ℚ)⌋).toNat with
  | none => exact ⟨hids, hrange⟩
  | some old =>
      dsimp only
      constructor
      · rw [map_id_set d _ old _ hget (by rfl)]
        exact hids
      · intro r hr
        rcases List.mem_or_eq_of_mem_set hr with hmem | rfl
        · exact hrange r hmem
        · obtain ⟨hr0, hrlt⟩ := floor_rand_mul (rand (base + 4 * k + 1))
            (hrand _).1 (hrand _).2 100 100 (by norm_num) (by norm_num)
          obtain ⟨hf0, hflt⟩ := floor_rand_mul (rand (base + 4 * k + 2))
            (hrand _).1 (hrand _).2 5 5 (by norm_num) (by norm_num)
          obtain ⟨hm0, hmlt⟩ := floor_rand_mul (rand (base + 4 * k + 3))
            (hrand _).1 (hrand _).2 500 500 (by norm_num) (by norm_num)
          refine ⟨Or.inr ⟨?_, ?_⟩, ⟨?_, ?_⟩, ⟨?_, ?_⟩⟩ <;> dsimp only
          · exact_mod_cast
              (show (300:ℤ) ≤ ⌊rand (base + 4 * k + 1) * 100⌋ + 300 by omega)
          · exact_mod_cast
              (show ⌊rand (base + 4 * k + 1) * 100⌋ + 300 ≤ (400:ℤ) by omega)
          · exact_mod_cast
              (show (1:ℤ) ≤ ⌊rand (base + 4 * k + 2) * 5⌋ + 1 by omega)
          · exact_mod_cast
              (show ⌊rand (base + 4 * k + 2) * 5⌋ + 1 ≤ (50:ℤ) by omega)
          · exact_mod_cast
              (show (10:ℤ) ≤ ⌊rand (base + 4 * k + 3) * 500⌋ + 10 by omega)
          · exact_mod_cast
              (show ⌊rand (base + 4 * k + 3) * 500⌋ + 10 ≤ (10000:ℤ) by omega)

lemma generator_invariant (count : ℕ) (rand : ℕ → ℚ)
    (hrand : ∀ n, 0 ≤ rand n ∧ rand n < 1) :
    (generateMockRFMData count rand).map RFMData.id =
      (List.range count).map (fun i0 => custId (i0 + 1)) ∧
    ∀ r ∈ generateMockRFMData count rand, recordInRange r := by
  have hbase : ((List.range count).map (baseRecord rand)).map RFMData.id =
      (List.range count).map (fun i0 => custId (i0 + 1)) ∧
      ∀ r ∈ (List.range count).map (baseRecord rand), recordInRange r := by
    constructor
    · rw [List.map_map]
      exact List.map_congr_left (fun i0 hi0 => rfl)
    · intro r hr
      rw [List.mem_map] at hr
      obtain ⟨i0, -, rfl⟩ := hr
      exact baseRecord_inRange rand hrand i0
  simp only [generateMockRFMData]
  exact foldl_preserves
    (fun d =>
      d.map RFMData.id = (List.range count).map (fun i0 => custId (i0 + 1)) ∧
      ∀ r ∈ d, recordInRange r)
    (inactiveOverwrite rand (3 * count + 3 * (⌊(count : ℚ) * 0.05⌋).toNat))
    (List.range (⌊(count : ℚ) * 0.1⌋).toNat)
    _
    (foldl_preserves _ (vipOverwrite rand (3 * count))
      (List.range (⌊(count : ℚ) * 0.05⌋).toNat) _ hbase
      (fun d j hP => vipOverwrite_preserves rand hrand _ _ d j hP))
    (fun d k hP => inactiveOverwrite_preserves rand hrand _ _ d k hP)

/-- C8: for every count N ≥ 1 and every outcome of the random draws
(each in [0, 1)), the generator produces exactly N records whose ids are
the distinct sequential `CUST_`-prefixed zero-padded indices 1..N, and
after the VIP and inactive overwrites every record has recency in
[1,365] ∪ [300,400], frequency in [1,50] and monetary in [10,10000]. -/
theorem generateMockRFMData_spec (count : ℕ) (rand : ℕ → ℚ)
    (hcount : 1 ≤ count) (hrand : ∀ n, 0 ≤ rand n ∧ rand n < 1) :
    (generateMockRFMData count rand).length = count ∧
    (generateMockRFMData count rand).map RFMData.id =
      (List.range count).map (fun i0 => custId (i0 + 1)) ∧
    ((generateMockRFMData count rand).map RFMData.id).Nodup ∧
    ∀ r ∈ generateMockRFMData count rand,
      ((1 ≤ r.recency ∧ r.recency ≤ 365) ∨ (300 ≤ r.recency ∧ r.recency ≤ 400)) ∧
      (1 ≤ r.frequency ∧ r.frequency ≤ 50) ∧
      (10 ≤ r.monetary ∧ r.monetary ≤ 10000) := by
  obtain ⟨hids, hrange⟩ := generator_invariant count rand hrand
  refine ⟨?_, hids, ?_, fun r hr => hrange r hr⟩
  · have hlen := congrArg List.length hids
    rwa [List.length_map, List.length_map, List.length_range] at hlen
  · rw [hids]
    apply List.Nodup.map ?_ (List.nodup_range count)
    intro x y hxy
    have hinj := custId_inj (x + 1) (y + 1) (by omega) (by omega) hxy
    omega

/-- Witness for C8 at count 1 with the all-zero draw oracle. -/
theorem generateMockRFMData_spec_witness :
    (generateMockRFMData 1 (fun _ => 0)).length = 1 :=
  (generateMockRFMData_spec 1 (fun _ => 0) (by norm_num)
    (fun n => ⟨le_refl 0, by norm_num⟩)).1

/-- Witness for C9 with value 20 inside the array [10, 20, 30]. -/
theorem calculatePercentile_total_witness :
    ∃ i, List.findIdx? (fun item => decide ((20:ℚ) ≤ item))
        (([10, 20, 30] : List ℚ).insertionSort (fun a b => a ≤ b)) = some i ∧
      i < ([10, 20, 30] : List ℚ).length ∧
      calculatePercentile 20 [10, 20, 30] =
        (if i = 0 then 0
         else (i : ℚ) / (((([10, 20, 30] : List ℚ).length : ℚ)) - 1)) ∧
      (1 ≤ i → 2 ≤ ([10, 20, 30] : List ℚ).length ∧
        ((([10, 20, 30] : List ℚ).length : ℚ) - 1) ≠ 0) :=
  calculatePercentile_total 20 [10, 20, 30] (by norm_num)
